import Mathlib

/-!
# Verification of the ohtujutt-rss data-acquisition core

Shallow embedding of the repository's HTTP retry client
(`src/http-client.js`), bounded TTL-LRU response cache
(`src/response-cache.js`, backed by the `lru-cache` npm library), and the
episode batch assembler / feed generator (`src/index.js`), together with
proofs settling the frozen claims about them.

Conventions: JavaScript numbers that are used as integers (timestamps in
milliseconds, retry counts, HTTP status codes) are modelled as `Nat`;
JavaScript strings as `String`; `undefined`/missing JSON fields as
`Option`; a thrown exception as the `Except.error` branch or as an
explicit error component of the result.
-/

namespace OhtujuttRss

/-! ## JavaScript string primitives

`String.prototype.includes` and `String.prototype.startsWith` are modelled
on the character lists underlying Lean strings. -/

/-- `isPrefixOfChars p l` is true iff the character list `p` is a prefix
of `l` (JS `startsWith` on the decoded character sequence). -/
def isPrefixOfChars : List Char → List Char → Bool
  | [], _ => true
  | _ :: _, [] => false
  | a :: as, b :: bs => a = b && isPrefixOfChars as bs

/-- `containsChars n l` is true iff `n` occurs as a contiguous substring
of `l` (JS `includes` on the decoded character sequence). -/
def containsChars (needle : List Char) : List Char → Bool
  | [] => needle.isEmpty
  | c :: cs => isPrefixOfChars needle (c :: cs) || containsChars needle cs

/-- JS `hay.includes(needle)`. -/
def strIncludes (hay needle : String) : Bool :=
  containsChars needle.data hay.data

/-- JS `s.startsWith(pre)`. -/
def jsStartsWith (s pre : String) : Bool :=
  isPrefixOfChars pre.data s.data

/-! ## Error objects and retry classification (`src/http-client.js`) -/

/-- A JavaScript `Error` as far as `isRetryableError` inspects it:
its `name` and its `message`. -/
structure JsError where
  name : String
  message : String
  deriving Repr, DecidableEq

/-- The error thrown by `fetchWithRetry` for a non-ok response:
`new Error(`HTTP ${response.status}: ${response.statusText}`)`
(its `name` is the default `"Error"`). -/
def httpError (status : Nat) (statusText : String) : JsError :=
  { name := "Error", message := "HTTP " ++ toString status ++ ": " ++ statusText }

/-- `isRetryableError` from `src/http-client.js` lines 33-56: network
errors (`AbortError`/`TypeError`) are retryable, then the message text is
inspected for `'HTTP 5'`, `'HTTP 429'`, `'HTTP 4'` in that order, and
unknown errors default to retryable. -/
def isRetryableError (e : JsError) : Bool :=
  if e.name = "AbortError" || e.name = "TypeError" then true
  else if strIncludes e.message "HTTP 5" then true
  else if strIncludes e.message "HTTP 429" then true
  else if strIncludes e.message "HTTP 4" then false
  else true

/-! ## The retry loop of `fetchWithRetry` (`src/http-client.js` lines 64-107)

One call runs `limit(async () => { for (attempt = 0; attempt <= MAX_RETRIES;
attempt++) ... })`: the whole retry loop, sleeps included, runs inside a
single p-limit slot.  The environment is abstracted by an oracle giving the
outcome of the `fetch` of each attempt.  The run is recorded as a list of
events so that temporal claims (slot holding, backoff sleeps) can be
stated. -/

/-- Outcome of the `await fetch(url, ...)` of one attempt. -/
inductive AttemptOutcome where
  /-- `response.ok` is true: the response is returned. -/
  | ok
  /-- response received with `response.ok` false: the loop throws
  `httpError status statusText`. -/
  | httpStatus (status : Nat) (statusText : String)
  /-- `fetch` itself rejected (network error, abort, ...). -/
  | thrown (e : JsError)
  deriving Repr, DecidableEq

/-- The error a given attempt outcome makes the `try` block throw
(`none` when the attempt succeeds). -/
def AttemptOutcome.toError : AttemptOutcome → Option JsError
  | .ok => none
  | .httpStatus s st => some (httpError s st)
  | .thrown e => some e

/-- Observable events of one `fetchWithRetry` call. -/
inductive FetchEvent where
  /-- a p-limit slot is acquired (the wrapped async function starts). -/
  | acquire
  /-- `await sleep(ms)` (exponential-backoff delay). -/
  | sleep (ms : Nat)
  /-- the `fetch` of attempt `n` (0-based) is issued. -/
  | attemptStart (n : Nat)
  /-- the p-limit slot is released (the wrapped function settled). -/
  | release
  deriving Repr, DecidableEq

/-- The `for (let attempt = 0; attempt <= maxRetries; attempt++)` loop,
started at a given `attempt` with `remaining = maxRetries - attempt`
attempts left after the current one, as (events, result).  `Except.ok n`
means the response of attempt `n` was returned; `Except.error e` means the
call throws `e`.  Mirrors lines 68-105 of `src/http-client.js`: a delay of
`initialDelay * 2 ^ (attempt - 1)` before every attempt after the first,
retry while the error is retryable and the attempt is not the last
(`remaining = 0` is exactly `attempt === MAX_RETRIES`), throw immediately
on a non-retryable error, throw `lastError` after the last attempt.

`attemptEvents` is the event prefix of one iteration: the backoff sleep
(`if (attempt > 0) await sleep(initialDelay * 2 ** (attempt - 1))`,
lines 69-73) followed by the start of that attempt's `fetch`. -/
def attemptEvents (initialDelay attempt : Nat) : List FetchEvent :=
  (if attempt > 0 then [.sleep (initialDelay * 2 ^ (attempt - 1))] else []) ++
    [FetchEvent.attemptStart attempt]

/-- See `attemptEvents` for the iteration structure this models. -/
def retryLoopGo (outcomes : Nat → AttemptOutcome) (initialDelay : Nat) :
    (attempt remaining : Nat) → List FetchEvent × Except JsError Nat
  | attempt, remaining =>
    let evs := attemptEvents initialDelay attempt
    match (outcomes attempt).toError with
    | none => (evs, .ok attempt)
    | some e =>
      match remaining with
      | 0 => (evs, .error e)
      | r + 1 =>
        if isRetryableError e then
          let rest := retryLoopGo outcomes initialDelay (attempt + 1) r
          (evs ++ rest.1, rest.2)
        else (evs, .error e)

/-- `fetchWithRetry(url, timeoutMs)` for a given environment: acquire the
p-limit slot, run the whole retry loop from attempt 0 (with `maxRetries`
further attempts allowed), release the slot when the wrapped async
function settles (success or failure). -/
def fetchWithRetry (outcomes : Nat → AttemptOutcome) (initialDelay maxRetries : Nat) :
    List FetchEvent × Except JsError Nat :=
  let run := retryLoopGo outcomes initialDelay 0 maxRetries
  (FetchEvent.acquire :: (run.1 ++ [FetchEvent.release]), run.2)

/-- Number of fetch attempts recorded in a trace. -/
def attemptCount (evs : List FetchEvent) : Nat :=
  evs.countP fun e => match e with | .attemptStart _ => true | _ => false

/-- `sleepWhileHeld evs held` is true iff some `sleep` event occurs in
`evs` at a point where the number of acquired-but-unreleased limiter slots
(starting from `held`) is positive. -/
def sleepWhileHeld : List FetchEvent → Nat → Bool
  | [], _ => false
  | .acquire :: rest, held => sleepWhileHeld rest (held + 1)
  | .release :: rest, held => sleepWhileHeld rest (held - 1)
  | .sleep _ :: rest, held => held > 0 || sleepWhileHeld rest held
  | .attemptStart _ :: rest, held => sleepWhileHeld rest held

/-- True for the events the retry loop itself emits (sleeps and attempt
starts), false for the slot-accounting events. -/
def FetchEvent.isLoopEvent : FetchEvent → Bool
  | .sleep _ => true
  | .attemptStart _ => true
  | _ => false

/-! ### Basic facts about the retry loop -/

theorem string_data_append (a b : String) : (a ++ b).data = a.data ++ b.data := by
  cases a; cases b; rfl

theorem isRetryableError_http500 (st : String) :
    isRetryableError (httpError 500 st) = true := by
  cases st with
  | mk l =>
    show isRetryableError (httpError 500 ⟨l⟩) = true
    rfl

/-- Whether the iteration at `attempt` (with `remaining` attempts allowed
after it) goes on to the next iteration. -/
def loopContinues (o : Nat → AttemptOutcome) (attempt remaining : Nat) : Bool :=
  match (o attempt).toError, remaining with
  | some e, _ + 1 => isRetryableError e
  | _, _ => false

/-- The trace of the retry loop in closed form: the events of the current
iteration followed, when the loop retries, by the trace of the rest. -/
theorem retryLoopGo_fst (o : Nat → AttemptOutcome) (d attempt remaining : Nat) :
    (retryLoopGo o d attempt remaining).1 =
      attemptEvents d attempt ++
        (if loopContinues o attempt remaining then
          (retryLoopGo o d (attempt + 1) (remaining - 1)).1
        else []) := by
  rw [retryLoopGo]
  rcases hout : (o attempt).toError with _ | err
  · simp [loopContinues, hout]
  · rcases remaining with _ | r
    · simp [loopContinues, hout]
    · by_cases hre : isRetryableError err = true
      · simp [loopContinues, hout, hre]
      · simp [loopContinues, hout, hre]

theorem loopContinues_zero (o : Nat → AttemptOutcome) (attempt : Nat) :
    loopContinues o attempt 0 = false := by
  unfold loopContinues
  rcases (o attempt).toError with _ | _ <;> rfl

theorem mem_attemptEvents {d attempt : Nat} {e : FetchEvent}
    (he : e ∈ attemptEvents d attempt) :
    e = .attemptStart attempt ∨ e = .sleep (d * 2 ^ (attempt - 1)) := by
  unfold attemptEvents at he
  split at he <;> simp at he <;> tauto

/-- Every event emitted by the retry loop body is a sleep or an attempt
start: the loop itself never touches the limiter slot. -/
theorem retryLoopGo_events_loopEvents (o : Nat → AttemptOutcome) (d : Nat) :
    ∀ remaining attempt, ∀ e ∈ (retryLoopGo o d attempt remaining).1,
      e.isLoopEvent = true := by
  intro remaining
  induction remaining with
  | zero =>
    intro attempt e he
    rw [retryLoopGo_fst, loopContinues_zero, if_neg Bool.false_ne_true,
      List.append_nil] at he
    rcases mem_attemptEvents he with h | h <;> simp [h, FetchEvent.isLoopEvent]
  | succ r ih =>
    intro attempt e he
    rw [retryLoopGo_fst] at he
    rcases hsplit : loopContinues o attempt (r + 1) with _ | _
    · rw [hsplit] at he
      simp only [if_neg Bool.false_ne_true, List.append_nil] at he
      rcases mem_attemptEvents he with h | h <;> simp [h, FetchEvent.isLoopEvent]
    · rw [hsplit] at he
      simp only [if_pos rfl, List.mem_append] at he
      rcases he with he | he
      · rcases mem_attemptEvents he with h | h <;> simp [h, FetchEvent.isLoopEvent]
      · exact ih (attempt + 1) e he

/-- True exactly for `sleep` events. -/
def FetchEvent.isSleep : FetchEvent → Bool
  | .sleep _ => true
  | _ => false

theorem sleepWhileHeld_loopEvents {body : List FetchEvent}
    (hbody : ∀ e ∈ body, e.isLoopEvent = true) :
    sleepWhileHeld (body ++ [FetchEvent.release]) 1 = body.any FetchEvent.isSleep := by
  induction body with
  | nil => rfl
  | cons e rest ih =>
    have he : e.isLoopEvent = true := hbody e (List.mem_cons_self e rest)
    have hrest : ∀ x ∈ rest, x.isLoopEvent = true :=
      fun x hx => hbody x (List.mem_cons_of_mem e hx)
    cases e with
    | sleep ms => simp [sleepWhileHeld, FetchEvent.isSleep, List.any_cons]
    | attemptStart n =>
      simp [sleepWhileHeld, FetchEvent.isSleep, List.any_cons, ih hrest]
    | acquire => simp [FetchEvent.isLoopEvent] at he
    | release => simp [FetchEvent.isLoopEvent] at he

/-! ### Claim C2 -/

/-- Claim C2 is false on the code: `fetchWithRetry` wraps the *entire*
retry loop in a single `limit(...)` call, so the p-limit slot stays held
across the backoff sleeps.  Concrete run: one retryable HTTP 500 with
`maxRetries = 1` and `initialDelay = 500` produces the trace
acquire, attempt 0, sleep 500 ms, attempt 1, release — the sleep happens
strictly between the acquire and the release, while the slot is held, and
no release happens when attempt 0's network I/O settles. -/
theorem fetchWithRetry_sleep_holds_slot_cex :
    (fetchWithRetry (fun _ => .httpStatus 500 "Internal Server Error") 500 1).1 =
      [.acquire, .attemptStart 0, .sleep 500, .attemptStart 1, .release] ∧
    sleepWhileHeld
      (fetchWithRetry (fun _ => .httpStatus 500 "Internal Server Error") 500 1).1 0 =
      true := by
  constructor <;> rfl

/-- Claim C2 (amended): a Limiter slot is acquired once per
`fetchWithRetry` call, before the first attempt, and released only when
the whole retry loop settles (success or failure); in particular the slot
is held during every exponential-backoff sleep between attempts.  Formally
the trace is a single acquire, then a body of sleeps and attempt starts
only, then a single release, and some sleep happens while the slot is held
exactly when the body contains a sleep at all. -/
theorem fetchWithRetry_slot_spans_call (o : Nat → AttemptOutcome) (d mr : Nat) :
    ∃ body, (fetchWithRetry o d mr).1 = .acquire :: (body ++ [.release]) ∧
      (∀ e ∈ body, e.isLoopEvent = true) ∧
      sleepWhileHeld (fetchWithRetry o d mr).1 0 = body.any FetchEvent.isSleep := by
  refine ⟨(retryLoopGo o d 0 mr).1, rfl, retryLoopGo_events_loopEvents o d mr 0, ?_⟩
  show sleepWhileHeld ((retryLoopGo o d 0 mr).1 ++ [FetchEvent.release]) 1 = _
  exact sleepWhileHeld_loopEvents (retryLoopGo_events_loopEvents o d mr 0)

/-! ### Claim C5 -/

/-- Claim C5: with `maxRetries = 2` and every attempt answered by an HTTP
500 response (any status texts), `fetchWithRetry` performs exactly 3
attempts and throws the error of the last attempt.  The initial backoff
delay is arbitrary. -/
theorem fetchWithRetry_three_attempts_on_500 (d : Nat) (st : Nat → String) :
    attemptCount (fetchWithRetry (fun n => .httpStatus 500 (st n)) d 2).1 = 3 ∧
    (fetchWithRetry (fun n => .httpStatus 500 (st n)) d 2).2 =
      Except.error (httpError 500 (st 2)) := by
  constructor
  · simp [fetchWithRetry, retryLoopGo, AttemptOutcome.toError, attemptEvents,
      isRetryableError_http500, attemptCount, List.countP_cons, List.countP_append]
  · simp [fetchWithRetry, retryLoopGo, AttemptOutcome.toError, attemptEvents,
      isRetryableError_http500]

/-! ### Claim C7 -/

/-- Adjacency discipline of backoff sleeps in a `fetchWithRetry` trace:
attempt 0 is directly preceded by the slot acquisition (no sleep before
it), attempt `n + 1` is directly preceded by a sleep of exactly
`initialDelay * 2 ^ n` milliseconds, and every sleep is directly followed
by the attempt it delays. -/
def backoffAdj (d : Nat) (a b : FetchEvent) : Prop :=
  (b = .attemptStart 0 → a = .acquire) ∧
  (∀ n : Nat, b = .attemptStart (n + 1) → a = .sleep (d * 2 ^ n)) ∧
  (∀ ms : Nat, a = .sleep ms → ∃ n : Nat, b = .attemptStart (n + 1) ∧ ms = d * 2 ^ n)

theorem backoffAdj_attemptStart_release (d m : Nat) :
    backoffAdj d (.attemptStart m) .release := by
  refine ⟨by simp, by simp, by simp⟩

theorem backoffAdj_attemptStart_sleep (d m ms : Nat) :
    backoffAdj d (.attemptStart m) (.sleep ms) := by
  refine ⟨by simp, by simp, by simp⟩

theorem backoffAdj_sleep_attemptStart (d k : Nat) :
    backoffAdj d (.sleep (d * 2 ^ k)) (.attemptStart (k + 1)) := by
  refine ⟨by simp, ?_, ?_⟩
  · intro n hn
    obtain rfl : k = n := by simpa using hn
    rfl
  · intro ms hms
    exact ⟨k, rfl, by simpa using hms.symm⟩

theorem chain_attemptEvents_append (d attempt : Nat)
    (tail : List FetchEvent)
    (htail : List.Chain' (backoffAdj d) tail)
    (hhead : ∀ y ∈ tail.head?, backoffAdj d (.attemptStart attempt) y) :
    List.Chain' (backoffAdj d) (attemptEvents d attempt ++ tail) := by
  unfold attemptEvents
  rcases attempt with _ | k
  · simpa using (List.chain'_cons'.2 ⟨hhead, htail⟩)
  · simp only [Nat.succ_sub_one, if_pos (Nat.succ_pos k), List.cons_append,
      List.singleton_append, List.nil_append]
    exact List.chain'_cons'.2 ⟨fun y hy => by
        simp at hy
        subst hy
        exact backoffAdj_sleep_attemptStart d k,
      List.chain'_cons'.2 ⟨hhead, htail⟩⟩

theorem retryLoopGo_head (o : Nat → AttemptOutcome) (d attempt remaining : Nat)
    (l : List FetchEvent) :
    ((retryLoopGo o d attempt remaining).1 ++ l).head? =
      some (if attempt > 0 then .sleep (d * 2 ^ (attempt - 1))
        else .attemptStart attempt) := by
  rw [retryLoopGo_fst]
  unfold attemptEvents
  rcases attempt with _ | k <;> simp

theorem chain_retryLoopGo (o : Nat → AttemptOutcome) (d : Nat) :
    ∀ remaining attempt,
      List.Chain' (backoffAdj d)
        ((retryLoopGo o d attempt remaining).1 ++ [FetchEvent.release]) := by
  intro remaining
  induction remaining with
  | zero =>
    intro attempt
    rw [retryLoopGo_fst, loopContinues_zero, if_neg Bool.false_ne_true,
      List.append_nil]
    exact chain_attemptEvents_append d attempt _ (by simp)
      (fun y hy => by
        simp at hy
        subst hy
        exact backoffAdj_attemptStart_release d attempt)
  | succ r ih =>
    intro attempt
    rw [retryLoopGo_fst]
    rcases hsplit : loopContinues o attempt (r + 1) with _ | _
    · rw [if_neg Bool.false_ne_true, List.append_nil]
      exact chain_attemptEvents_append d attempt _ (by simp)
        (fun y hy => by
          simp at hy
          subst hy
          exact backoffAdj_attemptStart_release d attempt)
    · rw [if_pos rfl, Nat.add_sub_cancel, List.append_assoc]
      refine chain_attemptEvents_append d attempt _ (ih (attempt + 1)) ?_
      intro y hy
      rw [retryLoopGo_head o d (attempt + 1) r [FetchEvent.release]] at hy
      simp at hy
      subst hy
      exact backoffAdj_attemptStart_sleep d attempt _

/-- Claim C7: in every `fetchWithRetry` trace, attempt 0 runs with no
preceding backoff delay (it directly follows the slot acquisition), the
sleep directly preceding attempt `n` (for `1 ≤ n`, written `n + 1` here
with `n ≥ 0`) lasts exactly `initialDelay * 2 ^ (n - 1)` milliseconds, and
every sleep is the backoff of the attempt that immediately follows it —
monotonic doubling with no jitter (500 ms, 1000 ms, 2000 ms, … for
`initialDelay = 500`). -/
theorem fetchWithRetry_backoff_exact (o : Nat → AttemptOutcome) (d mr : Nat) :
    List.Chain' (backoffAdj d) (fetchWithRetry o d mr).1 := by
  show List.Chain' (backoffAdj d)
    (.acquire :: ((retryLoopGo o d 0 mr).1 ++ [FetchEvent.release]))
  refine List.chain'_cons'.2 ⟨?_, chain_retryLoopGo o d mr 0⟩
  intro y hy
  rw [retryLoopGo_head o d 0 mr [FetchEvent.release]] at hy
  simp at hy
  subst hy
  exact ⟨fun _ => rfl, by simp, by simp⟩

/-! ### Claim C6

`isRetryableError` classifies by substring search in the error *message*,
`'HTTP 5'` and `'HTTP 429'` before `'HTTP 4'`.  For a response with a 4xx
status other than 429 the message is `"HTTP <status>: <statusText>"`; the
classification is "non-retryable" exactly when the status text itself does
not smuggle in `'HTTP 5'` or `'HTTP 429'`. -/

theorem containsChars_skip_of_head_ne {n : List Char} {b : List Char} :
    ∀ a : List Char, (∀ c ∈ a, c ≠ 'H') →
      containsChars ('H' :: n) (a ++ b) = containsChars ('H' :: n) b := by
  intro a
  induction a with
  | nil => intro _; rfl
  | cons c cs ih =>
    intro h
    have hc : c ≠ 'H' := h c (List.mem_cons_self c cs)
    have hpre : isPrefixOfChars ('H' :: n) (c :: (cs ++ b)) = false := by
      show (decide ('H' = c) && isPrefixOfChars n (cs ++ b)) = false
      rw [decide_eq_false (fun hh => hc hh.symm), Bool.false_and]
    rw [List.cons_append]
    show (isPrefixOfChars ('H' :: n) (c :: (cs ++ b)) || containsChars ('H' :: n) (cs ++ b)) = _
    rw [hpre, Bool.false_or]
    exact ih (fun x hx => h x (List.mem_cons_of_mem c hx))

set_option maxRecDepth 10000 in
theorem repr_4xx_facts :
    ∀ s : Nat, s < 500 → 400 ≤ s →
      (Nat.repr s).data.length = 3 ∧
      (Nat.repr s).data.head? = some '4' ∧
      (∀ c ∈ (Nat.repr s).data, c.isDigit = true) ∧
      (s ≠ 429 → Nat.repr s ≠ "429") := by decide

theorem httpError_message_data (s : Nat) (st : String) :
    (httpError s st).message.data =
      'H' :: 'T' :: 'T' :: 'P' :: ' ' ::
        ((Nat.repr s).data ++ ':' :: ' ' :: st.data) := by
  show ("HTTP " ++ toString s ++ ": " ++ st).data = _
  rw [string_data_append, string_data_append, string_data_append]
  have h1 : ("HTTP " : String).data = ['H', 'T', 'T', 'P', ' '] := rfl
  have h2 : (": " : String).data = [':', ' '] := rfl
  have h3 : (toString s : String).data = (Nat.repr s).data := rfl
  rw [h1, h2, h3]
  simp

/-- On a 4xx status other than 429, with a status text that does not
contain `'HTTP 5'` or `'HTTP 429'`, the thrown error is classified as
non-retryable. -/
theorem isRetryableError_httpError_4xx (s : Nat) (st : String)
    (hs4 : 400 ≤ s) (hs5 : s < 500) (hne : s ≠ 429)
    (hst5 : strIncludes st "HTTP 5" = false)
    (hst429 : strIncludes st "HTTP 429" = false) :
    isRetryableError (httpError s st) = false := by
  obtain ⟨hlen, hhead, hdig, hne429⟩ := repr_4xx_facts s hs5 hs4
  rcases hrepr : (Nat.repr s).data with _ | ⟨c0, _ | ⟨c1, _ | ⟨c2, _ | ⟨c3, rest⟩⟩⟩⟩ <;>
    rw [hrepr] at hlen <;> simp at hlen
  rw [hrepr] at hhead hdig
  obtain rfl : c0 = '4' := by simpa using hhead
  have hd1 : c1.isDigit = true := hdig c1 (by simp)
  have hd2 : c2.isDigit = true := hdig c2 (by simp)
  have hne29 : ¬(c1 = '2' ∧ c2 = '9') := by
    intro ⟨h1, h2⟩
    subst h1; subst h2
    exact hne429 hne (by
      apply congrArg String.mk at hrepr
      simpa using hrepr)
  have hmsg := httpError_message_data s st
  rw [hrepr] at hmsg
  simp only [List.cons_append, List.nil_append] at hmsg
  -- tail of the message after its leading 'H': no further 'H' occurs
  -- before the status text
  have hskip : ∀ n : List Char,
      containsChars ('H' :: n)
        ('T' :: 'T' :: 'P' :: ' ' :: '4' :: c1 :: c2 :: ':' :: ' ' :: st.data) =
      containsChars ('H' :: n) st.data := by
    intro n
    have := containsChars_skip_of_head_ne
      (n := n) (b := st.data) ['T', 'T', 'P', ' ', '4', c1, c2, ':', ' ']
      (by
        intro c hcmem
        have hH : ¬ ('H' : Char).isDigit = true := by decide
        simp at hcmem
        rcases hcmem with rfl | rfl | rfl | rfl | rfl | rfl | rfl | rfl | rfl
        all_goals first
          | decide
          | (intro hcH; rw [hcH] at hd1; exact hH hd1)
          | (intro hcH; rw [hcH] at hd2; exact hH hd2))
    simpa using this
  have h5 : strIncludes (httpError s st).message "HTTP 5" = false := by
    show containsChars ("HTTP 5").data (httpError s st).message.data = false
    rw [hmsg]
    have hstep : containsChars ("HTTP 5").data
        ('H' :: 'T' :: 'T' :: 'P' :: ' ' :: '4' :: c1 :: c2 :: ':' :: ' ' :: st.data) =
        (isPrefixOfChars ("HTTP 5").data
          ('H' :: 'T' :: 'T' :: 'P' :: ' ' :: '4' :: c1 :: c2 :: ':' :: ' ' :: st.data) ||
        containsChars ("HTTP 5").data
          ('T' :: 'T' :: 'P' :: ' ' :: '4' :: c1 :: c2 :: ':' :: ' ' :: st.data)) := rfl
    rw [hstep]
    have hpre : isPrefixOfChars ("HTTP 5").data
        ('H' :: 'T' :: 'T' :: 'P' :: ' ' :: '4' :: c1 :: c2 :: ':' :: ' ' :: st.data) =
        false := rfl
    rw [hpre, Bool.false_or]
    have : ("HTTP 5").data = 'H' :: "TTP 5".data := rfl
    rw [this, hskip, ← this]
    exact hst5
  have h429 : strIncludes (httpError s st).message "HTTP 429" = false := by
    show containsChars ("HTTP 429").data (httpError s st).message.data = false
    rw [hmsg]
    have hstep : containsChars ("HTTP 429").data
        ('H' :: 'T' :: 'T' :: 'P' :: ' ' :: '4' :: c1 :: c2 :: ':' :: ' ' :: st.data) =
        (isPrefixOfChars ("HTTP 429").data
          ('H' :: 'T' :: 'T' :: 'P' :: ' ' :: '4' :: c1 :: c2 :: ':' :: ' ' :: st.data) ||
        containsChars ("HTTP 429").data
          ('T' :: 'T' :: 'P' :: ' ' :: '4' :: c1 :: c2 :: ':' :: ' ' :: st.data)) := rfl
    rw [hstep]
    have hpre : isPrefixOfChars ("HTTP 429").data
        ('H' :: 'T' :: 'T' :: 'P' :: ' ' :: '4' :: c1 :: c2 :: ':' :: ' ' :: st.data) =
        (decide ('2' = c1) && (decide ('9' = c2) && true)) := rfl
    rw [hpre]
    have hd29 : (decide ('2' = c1) && (decide ('9' = c2) && true)) = false := by
      by_cases h1 : c1 = '2'
      · have h2 : ¬('9' = c2) := fun hh => hne29 ⟨h1, hh.symm⟩
        rw [decide_eq_false h2]
        simp
      · rw [decide_eq_false (fun hh => h1 hh.symm)]
        simp
    rw [hd29, Bool.false_or]
    have hH : ("HTTP 429").data = 'H' :: "TTP 429".data := rfl
    rw [hH, hskip, ← hH]
    exact hst429
  have h4 : strIncludes (httpError s st).message "HTTP 4" = true := by
    show containsChars ("HTTP 4").data (httpError s st).message.data = true
    rw [hmsg]
    rfl
  rw [isRetryableError]
  have hname : ((httpError s st).name = "AbortError" ||
      (httpError s st).name = "TypeError") = false := rfl
  rw [if_neg (by rw [hname]; exact Bool.false_ne_true)]
  rw [if_neg (by rw [h5]; exact Bool.false_ne_true)]
  rw [if_neg (by rw [h429]; exact Bool.false_ne_true)]
  rw [if_pos (by rw [h4])]

/-- Claim C6 is false as stated: the 4xx classification inspects the error
*message text*, so a 404 response whose status text contains `'HTTP 5'` is
classified retryable.  Concrete run: status 404 (a 4xx other than 429)
with status text `"HTTP 500 upstream"` on every attempt and
`maxRetries = 2 ≥ 1` makes `fetchWithRetry` perform 3 attempts, not
exactly 1. -/
theorem fetchWithRetry_4xx_retried_cex :
    400 ≤ 404 ∧ 404 < 500 ∧ 404 ≠ 429 ∧ (1 : Nat) ≤ 2 ∧
    attemptCount
      (fetchWithRetry (fun _ => .httpStatus 404 "HTTP 500 upstream") 500 2).1 = 3 := by
  refine ⟨by decide, by decide, by decide, by decide, ?_⟩
  rfl

/-- Claim C6 (amended): with `maxRetries ≥ 1`, a response on the first
attempt with a 4xx status other than 429 — provided its status text does
not itself contain `'HTTP 5'` or `'HTTP 429'` as a substring — makes
`fetchWithRetry` perform exactly 1 attempt and throw that error
immediately, consuming none of the remaining retry budget. -/
theorem fetchWithRetry_4xx_single_attempt (o : Nat → AttemptOutcome)
    (d mr s : Nat) (st : String)
    (hmr : 1 ≤ mr) (hs4 : 400 ≤ s) (hs5 : s < 500) (hne : s ≠ 429)
    (hst5 : strIncludes st "HTTP 5" = false)
    (hst429 : strIncludes st "HTTP 429" = false)
    (h0 : o 0 = .httpStatus s st) :
    attemptCount (fetchWithRetry o d mr).1 = 1 ∧
    (fetchWithRetry o d mr).2 = Except.error (httpError s st) := by
  have hret := isRetryableError_httpError_4xx s st hs4 hs5 hne hst5 hst429
  rcases mr with _ | r
  · exact absurd hmr (by decide)
  · constructor
    · simp [fetchWithRetry, retryLoopGo, h0, AttemptOutcome.toError, hret,
        attemptEvents, attemptCount, List.countP_cons]
    · simp [fetchWithRetry, retryLoopGo, h0, AttemptOutcome.toError, hret]

/-- Witness for `fetchWithRetry_4xx_single_attempt`: a plain 404 with
status text `"Not Found"` and `maxRetries = 2` is thrown after exactly one
attempt. -/
theorem fetchWithRetry_4xx_single_attempt_witness :
    attemptCount
      (fetchWithRetry (fun _ => .httpStatus 404 "Not Found") 500 2).1 = 1 ∧
    (fetchWithRetry (fun _ => .httpStatus 404 "Not Found") 500 2).2 =
      Except.error (httpError 404 "Not Found") :=
  fetchWithRetry_4xx_single_attempt (fun _ => .httpStatus 404 "Not Found")
    500 2 404 "Not Found" (by decide) (by decide) (by decide) (by decide)
    (by rfl) (by rfl) rfl

/-! ## The response cache (`src/response-cache.js`)

The module stores responses in an `LRUCache` from the `lru-cache` npm
library, configured with `max`, `ttl`, `updateAgeOnGet: false`,
`updateAgeOnHas: false`.

The library semantics embedded here (lru-cache v10/v11):
* each live entry records its value, the time it was last *written*
  (`start`) and its `ttl`; `updateAgeOnGet: false` means `get` never
  refreshes `start`;
* an entry is stale when `ttl !== 0 && now - start > ttl` (strict
  inequality);
* `get` of a live entry returns its value and updates the entry's LRU
  recency (moves it to the most-recently-used end); `get` of a stale
  entry deletes it and returns `undefined`;
* `set` of an existing key overwrites it in place and makes it most
  recently used; `set` of a new key at capacity first evicts the
  least-recently-used entry.

Entries are kept as a list ordered from least- to most-recently-used.
Timestamps are milliseconds, passed explicitly (`Date.now()` /
`performance.now()`). -/

structure CacheEntry (α : Type) where
  value : α
  start : Nat
  ttl : Nat
  deriving Repr, DecidableEq

structure LRUState (α : Type) where
  max : Nat
  defaultTTL : Nat
  /-- live entries, least recently used first -/
  entries : List (String × CacheEntry α)
  deriving Repr, DecidableEq

/-- lru-cache staleness check: `ttl !== 0 && now - start > ttl`. -/
def isStale (now start ttl : Nat) : Bool :=
  ttl ≠ 0 && start + ttl < now

/-- Remove the entry (entries) stored under `k`. -/
def eraseKey {α : Type} (entries : List (String × CacheEntry α)) (k : String) :
    List (String × CacheEntry α) :=
  entries.filter fun e => e.1 ≠ k

/-- `LRUCache.get` with `updateAgeOnGet: false`: a hit returns the value
and promotes the entry to most recently used without refreshing its
`start`; a stale hit deletes the entry and reports a miss. -/
def cacheGet {α : Type} (s : LRUState α) (k : String) (now : Nat) :
    Option α × LRUState α :=
  match s.entries.find? (fun e => e.1 = k) with
  | none => (none, s)
  | some (_, e) =>
    if isStale now e.start e.ttl then
      (none, { s with entries := eraseKey s.entries k })
    else
      (some e.value, { s with entries := eraseKey s.entries k ++ [(k, e)] })

/-- The per-entry TTL `setCache` passes to `LRUCache.set`:
`ttlMs ? { ttl: ttlMs } : undefined`, so a missing (or zero, i.e. falsy)
`ttlMs` falls back to the cache-wide default. -/
def effectiveTTL {α : Type} (s : LRUState α) (ttlOpt : Option Nat) : Nat :=
  match ttlOpt with
  | some t => if t ≠ 0 then t else s.defaultTTL
  | none => s.defaultTTL

/-- `LRUCache.set`: overwrite an existing key in place (most recently
used, fresh `start`), or insert a new key, evicting the least recently
used entry when at capacity. -/
def cacheSet {α : Type} (s : LRUState α) (k : String) (v : α)
    (ttlOpt : Option Nat) (now : Nat) : LRUState α :=
  let entry : CacheEntry α := ⟨v, now, effectiveTTL s ttlOpt⟩
  if (s.entries.find? (fun e => e.1 = k)).isSome then
    { s with entries := eraseKey s.entries k ++ [(k, entry)] }
  else
    let base := if s.entries.length ≥ s.max then s.entries.tail else s.entries
    { s with entries := base ++ [(k, entry)] }

/-- `getCached(key)` (`src/response-cache.js` lines 27-29): `cache.get(key)`. -/
def getCached {α : Type} (s : LRUState α) (key : String) (now : Nat) :
    Option α × LRUState α :=
  cacheGet s key now

/-- `setCache(key, data, ttlMs)` (lines 37-40). -/
def setCache {α : Type} (s : LRUState α) (key : String) (data : α)
    (ttlMs : Option Nat) (now : Nat) : LRUState α :=
  cacheSet s key data ttlMs now

/-- `getCachedBatch(keys)` (lines 65-74): a `cache.get` per key, in
order, collecting the hits into a map (modelled as the association list
of hits in insertion order). -/
def getCachedBatch {α : Type} (s : LRUState α) (keys : List String) (now : Nat) :
    List (String × α) × LRUState α :=
  match keys with
  | [] => ([], s)
  | k :: rest =>
    let hit := cacheGet s k now
    let others := getCachedBatch hit.2 rest now
    match hit.1 with
    | some v => ((k, v) :: others.1, others.2)
    | none => others

/-- Lookup in the result map of `getCachedBatch`. -/
def lookupBatch {α : Type} (results : List (String × α)) (k : String) : Option α :=
  (results.find? (fun e => e.1 = k)).map (·.2)

/-- Whether `k` is currently stored (fresh or stale). -/
def hasKey {α : Type} (s : LRUState α) (k : String) : Bool :=
  (s.entries.find? (fun e => e.1 = k)).isSome

/-! ### Claim C1 -/

/-- The states of the claim C1 counterexample: capacity 2, default TTL
3600000 ms, keys `"a"` then `"b"` written at time 0. -/
def smallCache : LRUState Nat := ⟨2, 3600000, []⟩

def c1Full : LRUState Nat := setCache (setCache smallCache "a" 1 none 0) "b" 2 none 0

/-- Claim C1 is false on the code: `getCached` calls `cache.get`, which
*does* update LRU recency (`updateAgeOnGet: false` only stops the TTL
from being refreshed).  With capacity 2 holding `a` then `b`, reading
`"a"` and then writing `"c"` evicts `"b"`; without the read, writing
`"c"` evicts `"a"` — the capacity-triggered eviction removes a different
entry because of the read. -/
theorem getCached_changes_eviction_cex :
    (getCached c1Full "a" 0).1 = some 1 ∧
    hasKey (setCache (getCached c1Full "a" 0).2 "c" 3 none 0) "b" = false ∧
    hasKey (setCache (getCached c1Full "a" 0).2 "c" 3 none 0) "a" = true ∧
    hasKey (setCache c1Full "c" 3 none 0) "a" = false ∧
    hasKey (setCache c1Full "c" 3 none 0) "b" = true := by
  refine ⟨rfl, rfl, rfl, rfl, rfl⟩

theorem cacheGet_eq_miss {α : Type} {s : LRUState α} {k : String} (now : Nat)
    (hfind : s.entries.find? (fun e => e.1 = k) = none) :
    cacheGet s k now = (none, s) := by
  unfold cacheGet
  rw [hfind]

theorem cacheGet_eq_stale {α : Type} {s : LRUState α} {k a : String}
    {e : CacheEntry α} {now : Nat}
    (hfind : s.entries.find? (fun x => x.1 = k) = some (a, e))
    (hstale : isStale now e.start e.ttl = true) :
    cacheGet s k now = (none, { s with entries := eraseKey s.entries k }) := by
  unfold cacheGet
  rw [hfind]
  simp [hstale]

theorem cacheGet_eq_hit {α : Type} {s : LRUState α} {k a : String}
    {e : CacheEntry α} {now : Nat}
    (hfind : s.entries.find? (fun x => x.1 = k) = some (a, e))
    (hstale : isStale now e.start e.ttl = false) :
    cacheGet s k now =
      (some e.value, { s with entries := eraseKey s.entries k ++ [(k, e)] }) := by
  unfold cacheGet
  rw [hfind]
  simp [hstale]

theorem find?_key_eq {α : Type} {l : List (String × CacheEntry α)} {k : String}
    {x : String × CacheEntry α}
    (hfind : l.find? (fun e => e.1 = k) = some x) : x.1 = k := by
  have := List.find?_some hfind
  simpa using this

theorem cacheGet_entries_subset {α : Type} (s : LRUState α) (k : String)
    (now : Nat) : ∀ p ∈ ((cacheGet s k now).2).entries, p ∈ s.entries := by
  intro p hp
  rcases hfind : s.entries.find? (fun e => e.1 = k) with _ | ⟨a, e⟩
  · rw [cacheGet_eq_miss now hfind] at hp
    exact hp
  · have hamem : (a, e) ∈ s.entries := List.mem_of_find?_eq_some hfind
    rcases hstale : isStale now e.start e.ttl with _ | _
    · rw [cacheGet_eq_hit hfind hstale] at hp
      simp only [List.mem_append, List.mem_singleton] at hp
      rcases hp with hp | hp
      · exact List.mem_of_mem_filter hp
      · subst hp
        have hak : a = k := find?_key_eq hfind
        rw [← hak]
        exact hamem
    · rw [cacheGet_eq_stale hfind hstale] at hp
      exact List.mem_of_mem_filter hp

theorem getCachedBatch_snd_cons {α : Type} (s : LRUState α) (k : String)
    (rest : List String) (now : Nat) :
    (getCachedBatch s (k :: rest) now).2 =
      (getCachedBatch (cacheGet s k now).2 rest now).2 := by
  rw [getCachedBatch]
  rcases h : (cacheGet s k now).1 with _ | v <;> simp [h]

/-- Claim C1 (amended): the read operations do not add, drop or mutate
live entries — a `getCached` hit returns the stored value and reproduces
the same entries with the hit key promoted to most recently used (its
value, write time and TTL unchanged), and every entry in the state left
by a `getCachedBatch` already was in the starting state.  Reads *do*
update LRU recency, so a capacity-triggered eviction after a read may
remove a different entry than it would have without the read (see the
counterexample). -/
theorem cache_reads_promote_without_mutating :
    (∀ (α : Type) (s : LRUState α) (k : String) (now : Nat) (v : α)
        (s' : LRUState α), getCached s k now = (some v, s') →
      ∃ e : CacheEntry α, (k, e) ∈ s.entries ∧ e.value = v ∧
        s'.entries = eraseKey s.entries k ++ [(k, e)] ∧
        s'.max = s.max ∧ s'.defaultTTL = s.defaultTTL) ∧
    (∀ (α : Type) (s : LRUState α) (keys : List String) (now : Nat),
      ∀ p ∈ ((getCachedBatch s keys now).2).entries, p ∈ s.entries) := by
  constructor
  · intro α s k now v s' h
    rcases hfind : s.entries.find? (fun e => e.1 = k) with _ | ⟨a, e⟩
    · rw [show getCached s k now = cacheGet s k now from rfl,
        cacheGet_eq_miss now hfind] at h
      exact absurd (congrArg Prod.fst h) (by simp)
    · have hamem : (a, e) ∈ s.entries := List.mem_of_find?_eq_some hfind
      have hak : a = k := find?_key_eq hfind
      rcases hstale : isStale now e.start e.ttl with _ | _
      · rw [show getCached s k now = cacheGet s k now from rfl,
          cacheGet_eq_hit hfind hstale] at h
        have h1 := congrArg Prod.fst h
        have h2 := congrArg Prod.snd h
        simp only [] at h1 h2
        refine ⟨e, ?_, Option.some.inj h1, ?_, ?_, ?_⟩
        · rw [← hak]
          exact hamem
        · rw [← h2]
        · rw [← h2]
        · rw [← h2]
      · rw [show getCached s k now = cacheGet s k now from rfl,
          cacheGet_eq_stale hfind hstale] at h
        exact absurd (congrArg Prod.fst h) (by simp)
  · intro α s keys
    induction keys generalizing s with
    | nil => intro now p hp; exact hp
    | cons k rest ih =>
      intro now p hp
      rw [getCachedBatch_snd_cons] at hp
      exact cacheGet_entries_subset s k now p (ih (cacheGet s k now).2 now p hp)

/-- Witness for `cache_reads_promote_without_mutating` at the concrete
two-entry cache: reading `"a"` promotes it, and a batch read leaves only
pre-existing entries. -/
theorem cache_reads_promote_without_mutating_witness :
    (∃ e : CacheEntry Nat, ("a", e) ∈ c1Full.entries ∧ e.value = 1 ∧
      (⟨2, 3600000, [("b", ⟨2, 0, 3600000⟩), ("a", ⟨1, 0, 3600000⟩)]⟩ :
          LRUState Nat).entries = eraseKey c1Full.entries "a" ++ [("a", e)] ∧
      (2 : Nat) = c1Full.max ∧ (3600000 : Nat) = c1Full.defaultTTL) ∧
    (("b", (⟨2, 0, 3600000⟩ : CacheEntry Nat)) ∈ c1Full.entries) :=
  ⟨cache_reads_promote_without_mutating.1 Nat c1Full "a" 0 1
      ⟨2, 3600000, [("b", ⟨2, 0, 3600000⟩), ("a", ⟨1, 0, 3600000⟩)]⟩ rfl,
    cache_reads_promote_without_mutating.2 Nat c1Full ["a", "b"] 0
      ("b", ⟨2, 0, 3600000⟩) (by decide)⟩

/-! ### Claim C8 -/

theorem find?_eraseKey_self {α : Type} (l : List (String × CacheEntry α))
    (k : String) : (eraseKey l k).find? (fun e => e.1 = k) = none := by
  rw [List.find?_eq_none]
  intro x hx
  have := List.of_mem_filter hx
  simpa using this

theorem find?_eraseKey_ne {α : Type} {l : List (String × CacheEntry α)}
    {k k' : String} (hne : k ≠ k') :
    (eraseKey l k').find? (fun e => e.1 = k) = l.find? (fun e => e.1 = k) := by
  induction l with
  | nil => rfl
  | cons x rest ih =>
    show (List.filter _ (x :: rest)).find? _ = _
    rw [List.filter_cons]
    by_cases hx : x.1 = k'
    · rw [if_neg (by simp [hx]), List.find?_cons_of_neg _
        (by simp; exact fun hh => hne (hh.symm.trans hx))]
      exact ih
    · rw [if_pos (by simp [hx])]
      by_cases hxk : x.1 = k
      · rw [List.find?_cons_of_pos _ (by simp [hxk]),
          List.find?_cons_of_pos _ (by simp [hxk])]
      · rw [List.find?_cons_of_neg _ (by simp [hxk]),
          List.find?_cons_of_neg _ (by simp [hxk])]
        exact ih

theorem find?_setCache_self {α : Type} (s : LRUState α) (k : String) (v : α)
    (t : Option Nat) (now₀ : Nat) :
    (setCache s k v t now₀).entries.find? (fun e => e.1 = k) =
      some (k, ⟨v, now₀, effectiveTTL s t⟩) := by
  show (cacheSet s k v t now₀).entries.find? _ = _
  unfold cacheSet
  by_cases hfind : (s.entries.find? (fun e => e.1 = k)).isSome
  · rw [if_pos hfind]
    show ((eraseKey s.entries k ++ [(k, _)]).find? _) = _
    rw [List.find?_append, find?_eraseKey_self]
    simp
  · rw [if_neg hfind]
    have hnone : s.entries.find? (fun e => e.1 = k) = none :=
      Option.not_isSome_iff_eq_none.mp hfind
    have hbase : ∀ x ∈ (if s.entries.length ≥ s.max then s.entries.tail
        else s.entries), ¬((fun (e : String × CacheEntry α) => e.1 = k) x : Bool) = true := by
      intro x hx
      have hxmem : x ∈ s.entries := by
        split at hx
        · exact List.tail_subset s.entries hx
        · exact hx
      exact List.find?_eq_none.mp hnone x hxmem
    show ((_ ++ [(k, _)]).find? _) = _
    rw [List.find?_append, List.find?_eq_none.mpr hbase]
    simp

/-- A fresh (unexpired) entry survives a `cache.get` of any key with its
value, write time and TTL intact. -/
theorem cacheGet_preserves_find {α : Type} {s : LRUState α} {k : String}
    {e : CacheEntry α} {now : Nat}
    (hfind : s.entries.find? (fun x => x.1 = k) = some (k, e))
    (hfresh : isStale now e.start e.ttl = false) (k' : String) :
    ((cacheGet s k' now).2).entries.find? (fun x => x.1 = k) = some (k, e) := by
  by_cases hkk : k' = k
  · subst hkk
    rw [cacheGet_eq_hit hfind hfresh]
    show ((eraseKey s.entries k' ++ [(k', e)]).find? _) = _
    rw [List.find?_append, find?_eraseKey_self]
    simp
  · have hne : k ≠ k' := fun hh => hkk hh.symm
    rcases hfind' : s.entries.find? (fun x => x.1 = k') with _ | ⟨a, e'⟩
    · rw [cacheGet_eq_miss now hfind']
      exact hfind
    · rcases hstale' : isStale now e'.start e'.ttl with _ | _
      · rw [cacheGet_eq_hit hfind' hstale']
        show ((eraseKey s.entries k' ++ [(k', e')]).find? _) = _
        rw [List.find?_append, find?_eraseKey_ne hne, hfind]
        rfl
      · rw [cacheGet_eq_stale hfind' hstale']
        show ((eraseKey s.entries k').find? _) = _
        rw [find?_eraseKey_ne hne, hfind]

/-- A key that reads as absent (missing or expired) still reads as absent
after a `cache.get` of any key. -/
theorem cacheGet_preserves_miss {α : Type} {s : LRUState α} {k : String}
    {now : Nat} (hmiss : (cacheGet s k now).1 = none) (k' : String) :
    (cacheGet ((cacheGet s k' now).2) k now).1 = none := by
  rcases hfind : s.entries.find? (fun x => x.1 = k) with _ | ⟨a, e⟩
  · -- `k` is absent: it stays absent after any read.
    by_cases hkk : k' = k
    · subst hkk
      rw [cacheGet_eq_miss now hfind, cacheGet_eq_miss now hfind]
    · have hne : k ≠ k' := fun hh => hkk hh.symm
      have hnone : ((cacheGet s k' now).2).entries.find? (fun x => x.1 = k) =
          none := by
        rcases hfind' : s.entries.find? (fun x => x.1 = k') with _ | ⟨a', e'⟩
        · rw [cacheGet_eq_miss now hfind']
          exact hfind
        · rcases hstale' : isStale now e'.start e'.ttl with _ | _
          · rw [cacheGet_eq_hit hfind' hstale']
            show ((eraseKey s.entries k' ++ [(k', e')]).find? _) = _
            rw [List.find?_append, find?_eraseKey_ne hne, hfind]
            simp
            exact fun hh => hne hh.symm
          · rw [cacheGet_eq_stale hfind' hstale']
            show ((eraseKey s.entries k').find? _) = _
            rw [find?_eraseKey_ne hne, hfind]
      rw [cacheGet_eq_miss now hnone]
  · have hak : a = k := find?_key_eq hfind
    subst hak
    rcases hstale : isStale now e.start e.ttl with _ | _
    · rw [cacheGet_eq_hit hfind hstale] at hmiss
      exact absurd hmiss (by simp)
    · by_cases hkk : k' = a
      · subst hkk
        rw [cacheGet_eq_stale hfind hstale]
        show (cacheGet (⟨s.max, s.defaultTTL, eraseKey s.entries k'⟩ :
          LRUState α) k' now).1 = none
        rw [cacheGet_eq_miss now (find?_eraseKey_self s.entries k')]
      · have hne : a ≠ k' := fun hh => hkk hh.symm
        have hstill : ((cacheGet s k' now).2).entries.find?
            (fun x => x.1 = a) = some (a, e) := by
          rcases hfind' : s.entries.find? (fun x => x.1 = k') with _ | ⟨a', e'⟩
          · rw [cacheGet_eq_miss now hfind']
            exact hfind
          · rcases hstale' : isStale now e'.start e'.ttl with _ | _
            · rw [cacheGet_eq_hit hfind' hstale']
              show ((eraseKey s.entries k' ++ [(k', e')]).find? _) = _
              rw [List.find?_append, find?_eraseKey_ne hne, hfind]
              rfl
            · rw [cacheGet_eq_stale hfind' hstale']
              show ((eraseKey s.entries k').find? _) = _
              rw [find?_eraseKey_ne hne, hfind]
        rw [cacheGet_eq_stale hstill hstale]

theorem getCachedBatch_cons {α : Type} (s : LRUState α) (k₀ : String)
    (rest : List String) (now : Nat) :
    getCachedBatch s (k₀ :: rest) now =
      match (cacheGet s k₀ now).1 with
      | some v => ((k₀, v) :: (getCachedBatch (cacheGet s k₀ now).2 rest now).1,
                   (getCachedBatch (cacheGet s k₀ now).2 rest now).2)
      | none => getCachedBatch (cacheGet s k₀ now).2 rest now := by
  rw [getCachedBatch]

theorem getCachedBatch_fst_cons_hit {α : Type} {s : LRUState α} {k₀ : String}
    {v : α} {now : Nat} (rest : List String)
    (hres : (cacheGet s k₀ now).1 = some v) :
    (getCachedBatch s (k₀ :: rest) now).1 =
      (k₀, v) :: (getCachedBatch (cacheGet s k₀ now).2 rest now).1 := by
  rw [getCachedBatch_cons, hres]

theorem getCachedBatch_fst_cons_miss {α : Type} {s : LRUState α} {k₀ : String}
    {now : Nat} (rest : List String) (hres : (cacheGet s k₀ now).1 = none) :
    (getCachedBatch s (k₀ :: rest) now).1 =
      (getCachedBatch (cacheGet s k₀ now).2 rest now).1 := by
  rw [getCachedBatch_cons, hres]

/-- A fresh entry is reported by `getCachedBatch` exactly when its key is
among the requested keys, with the stored value. -/
theorem lookupBatch_visible {α : Type} {k : String} {e : CacheEntry α}
    {now : Nat} :
    ∀ (keys : List String) (s : LRUState α),
      s.entries.find? (fun x => x.1 = k) = some (k, e) →
      isStale now e.start e.ttl = false →
      lookupBatch (getCachedBatch s keys now).1 k =
        if k ∈ keys then some e.value else none := by
  intro keys
  induction keys with
  | nil =>
    intro s _ _
    simp [getCachedBatch, lookupBatch]
  | cons k₀ rest ih =>
    intro s hfind hfresh
    by_cases hk₀ : k₀ = k
    · subst hk₀
      have hres : (cacheGet s k₀ now).1 = some e.value := by
        rw [cacheGet_eq_hit hfind hfresh]
      rw [getCachedBatch_fst_cons_hit rest hres]
      unfold lookupBatch
      rw [List.find?_cons_of_pos _ (by simp)]
      simp
    · have hkn : ¬(k = k₀) := fun hh => hk₀ hh.symm
      have hpres := cacheGet_preserves_find hfind hfresh k₀
      have hrec := ih (cacheGet s k₀ now).2 hpres hfresh
      rcases hres : (cacheGet s k₀ now).1 with _ | v
      · rw [getCachedBatch_fst_cons_miss rest hres, hrec]
        simp [List.mem_cons, hkn]
      · rw [getCachedBatch_fst_cons_hit rest hres]
        unfold lookupBatch
        rw [List.find?_cons_of_neg _ (by simp [hk₀])]
        rw [show (List.find? (fun x => x.1 = k)
            (getCachedBatch (cacheGet s k₀ now).2 rest now).1).map (·.2) =
          lookupBatch (getCachedBatch (cacheGet s k₀ now).2 rest now).1 k
          from rfl]
        rw [hrec]
        simp [List.mem_cons, hkn]

/-- A key that reads as absent stays unreported by `getCachedBatch`. -/
theorem lookupBatch_absent {α : Type} {k : String} {now : Nat} :
    ∀ (keys : List String) (s : LRUState α),
      (cacheGet s k now).1 = none →
      lookupBatch (getCachedBatch s keys now).1 k = none := by
  intro keys
  induction keys with
  | nil =>
    intro s _
    simp [getCachedBatch, lookupBatch]
  | cons k₀ rest ih =>
    intro s hmiss
    have hpres := cacheGet_preserves_miss hmiss k₀
    rcases hres : (cacheGet s k₀ now).1 with _ | v
    · rw [getCachedBatch_fst_cons_miss rest hres]
      exact ih (cacheGet s k₀ now).2 hpres
    · by_cases hk₀ : k₀ = k
      · subst hk₀
        rw [hres] at hmiss
        exact absurd hmiss (by simp)
      · rw [getCachedBatch_fst_cons_hit rest hres]
        unfold lookupBatch
        rw [List.find?_cons_of_neg _ (by simp [hk₀])]
        exact ih (cacheGet s k₀ now).2 hpres

/-! ### Claim C8 -/

/-- Claim C8 is false at the expiry boundary: lru-cache treats an entry as
stale only when `now - insertedAt` *strictly exceeds* `ttl`, so a read at
exactly `insertedAt + ttl` — which is not strictly before expiry — still
observes the value.  Concretely: `set("k", 7, ttl 50ms)` at time 0, then
`get("k")` at time 50 returns 7, not absent. -/
theorem cache_visible_at_exact_expiry_cex :
    (getCached (setCache smallCache "k" 7 (some 50) 0) "k" 50).1 = some 7 ∧
    ¬((50 : Nat) < 0 + 50) := by
  refine ⟨rfl, ?_⟩
  decide

/-- Claim C8 (amended): a `getCached(k)` or a `getCachedBatch` containing
`k`, performed after `setCache(k, v, t)` (with `t ≠ 0`) and with no
intervening writes, observes exactly `v` at any time up to and including
`insertedAt + t`, and observes absence at any time strictly after
`insertedAt + t`: an entry is visible to reads only while
`now ≤ insertedAt + ttl`. -/
theorem setCache_get_visibility (α : Type) (s : LRUState α) (k : String)
    (v : α) (t now₀ now : Nat) (ht : t ≠ 0) :
    ((now ≤ now₀ + t →
        (getCached (setCache s k v (some t) now₀) k now).1 = some v) ∧
      (now₀ + t < now →
        (getCached (setCache s k v (some t) now₀) k now).1 = none)) ∧
    ∀ keys : List String,
      ((k ∈ keys → now ≤ now₀ + t →
        lookupBatch (getCachedBatch (setCache s k v (some t) now₀) keys now).1 k
          = some v) ∧
       (now₀ + t < now →
        lookupBatch (getCachedBatch (setCache s k v (some t) now₀) keys now).1 k
          = none)) := by
  have heff : effectiveTTL s (some t) = t := by simp [effectiveTTL, ht]
  have hfind : (setCache s k v (some t) now₀).entries.find?
      (fun e => e.1 = k) = some (k, ⟨v, now₀, t⟩) := by
    rw [find?_setCache_self, heff]
  constructor
  · constructor
    · intro hvis
      have hfresh : isStale now now₀ t = false := by
        simp [isStale]
        omega
      rw [show getCached (setCache s k v (some t) now₀) k now =
        cacheGet (setCache s k v (some t) now₀) k now from rfl,
        cacheGet_eq_hit hfind hfresh]
    · intro hexp
      have hstale : isStale now now₀ t = true := by
        simp [isStale]
        omega
      rw [show getCached (setCache s k v (some t) now₀) k now =
        cacheGet (setCache s k v (some t) now₀) k now from rfl,
        cacheGet_eq_stale hfind hstale]
  · intro keys
    constructor
    · intro hmem hvis
      have hfresh : isStale now now₀ t = false := by
        simp [isStale]
        omega
      rw [lookupBatch_visible keys _ hfind hfresh]
      simp [hmem]
    · intro hexp
      have hstale : isStale now now₀ t = true := by
        simp [isStale]
        omega
      refine lookupBatch_absent keys _ ?_
      rw [cacheGet_eq_stale hfind hstale]

/-- Witness for `setCache_get_visibility`: `set("k", 7, ttl 50)` at time
0 is read back at time 30 (single and batch read) and is absent at
time 51. -/
theorem setCache_get_visibility_witness :
    (getCached (setCache smallCache "k" 7 (some 50) 0) "k" 30).1 = some 7 ∧
    (getCached (setCache smallCache "k" 7 (some 50) 0) "k" 51).1 = none ∧
    lookupBatch
      (getCachedBatch (setCache smallCache "k" 7 (some 50) 0) ["a", "k"] 30).1
      "k" = some 7 :=
  ⟨(setCache_get_visibility Nat smallCache "k" 7 50 0 30 (by decide)).1.1
      (by decide),
   (setCache_get_visibility Nat smallCache "k" 7 50 0 51 (by decide)).1.2
      (by decide),
   ((setCache_get_visibility Nat smallCache "k" 7 50 0 30 (by decide)).2
      ["a", "k"]).1 (by decide) (by decide)⟩

/-! ## The feed assembler (`src/index.js`, final variant, lines 754-1041)

JSON values from the upstream API are modelled structurally: a missing
(`undefined`) field is `none`.  JavaScript truthiness on strings treats
`undefined`/`null`/`""` as falsy; on numbers it treats `0` as falsy;
objects are always truthy. -/

/-- JS string truthiness on an optional string. -/
def jsStrFalsy : Option String → Bool
  | none => true
  | some s => s = ""

/-- JS `a || b` on optional strings. -/
def jsOrStr (a b : Option String) : Option String :=
  if jsStrFalsy a then b else a

/-- JS `a || dflt` where `dflt` is a (truthy) string literal. -/
def jsOrStrD (a : Option String) (dflt : String) : String :=
  match a with
  | some s => if s = "" then dflt else s
  | none => dflt

/-- JS `a || 0` on an optional number. -/
def jsOrNat0 : Option Nat → Nat
  | some n => n
  | none => 0

/-- JS `a || b` where `a` is an (always truthy) object when present. -/
def jsOrObj {α : Type} (a b : Option α) : Option α :=
  match a with
  | some x => some x
  | none => b

/-! ### `stripHtml` (lines 962-972)

`html.replace(/<[^>]*>/g, '')` removes every complete `<...>` tag (an
unterminated `<` with no later `>` matches nothing), then five entity
replacements run in order, then `trim()`.  The recursions run on an
explicit fuel equal to the list length so that they stay structural. -/

/-- Skip to just after the next `'>'`; `none` when there is none. -/
def dropTag : List Char → Option (List Char)
  | [] => none
  | '>' :: rest => some rest
  | _ :: rest => dropTag rest

def stripTagsFuel : Nat → List Char → List Char
  | 0, l => l
  | _ + 1, [] => []
  | f + 1, c :: rest =>
    if c = '<' then
      match dropTag rest with
      | some after => stripTagsFuel f after
      | none => c :: rest
    else c :: stripTagsFuel f rest

def stripTags (l : List Char) : List Char :=
  stripTagsFuel l.length l

/-- Global, non-overlapping, left-to-right replacement of the pattern
`p :: ps` by `rep` (JS `String.prototype.replace` with a `/.../g`
literal-text pattern). -/
def replaceAllFuel (p : Char) (ps rep : List Char) : Nat → List Char → List Char
  | _, [] => []
  | 0, l => l
  | f + 1, c :: rest =>
    if isPrefixOfChars (p :: ps) (c :: rest) then
      rep ++ replaceAllFuel p ps rep f (rest.drop ps.length)
    else c :: replaceAllFuel p ps rep f rest

def jsReplaceAll (s pat rep : String) : String :=
  match pat.data with
  | [] => s
  | p :: ps => ⟨replaceAllFuel p ps rep.data s.data.length s.data⟩

/-- JS whitespace trimmed by `String.prototype.trim` (the characters that
occur in this codebase's data). -/
def isJsSpace (c : Char) : Bool :=
  c = ' ' || c = '\t' || c = '\n' || c = '\r'

def trimChars (l : List Char) : List Char :=
  ((l.dropWhile isJsSpace).reverse.dropWhile isJsSpace).reverse

/-- `stripHtml(html)` from `src/index.js` lines 962-972. -/
def stripHtml (html : Option String) : String :=
  match html with
  | none => ""
  | some h =>
    if h = "" then ""
    else
      let t := String.mk (stripTags h.data)
      let t := jsReplaceAll t "&nbsp;" " "
      let t := jsReplaceAll t "&amp;" "&"
      let t := jsReplaceAll t "&lt;" "<"
      let t := jsReplaceAll t "&gt;" ">"
      let t := jsReplaceAll t "&quot;" "\""
      ⟨trimChars t.data⟩

/-! ### The upstream JSON shape (the fields the code reads) -/

structure MediaSrc where
  file : Option String
  hls : Option String
  deriving Repr, DecidableEq

structure MediaItem where
  src : Option MediaSrc
  duration : Option Nat
  deriving Repr, DecidableEq

structure Photo where
  photoUrlOriginal : Option String
  deriving Repr, DecidableEq

/-- `data.mainContent` of a `getContentPageData` response. -/
structure MainContent where
  id : Nat
  heading : Option String
  lead : Option String
  body : Option String
  /-- Unix timestamp in seconds -/
  scheduleStart : Option Nat
  medias : Option (List MediaItem)
  photos : Option (List Photo)
  deriving Repr, DecidableEq

structure ContentRef where
  id : Option Nat
  deriving Repr, DecidableEq

structure MonthItem where
  contents : Option (List ContentRef)
  deriving Repr, DecidableEq

structure YearItem where
  items : Option (List MonthItem)
  deriving Repr, DecidableEq

structure SeasonList where
  items : Option (List YearItem)
  deriving Repr, DecidableEq

structure PayloadData where
  mainContent : Option MainContent
  seasonList : Option SeasonList
  deriving Repr, DecidableEq

/-- A parsed `getContentPageData` response body. -/
structure ApiPayload where
  data : Option PayloadData
  deriving Repr, DecidableEq

/-- A feed episode as built by `parseEpisode` (dates are Unix
milliseconds). -/
structure Episode where
  id : Nat
  title : String
  description : String
  audioUrl : String
  pubDate : Nat
  imageUrl : String
  duration : Nat
  link : String
  deriving Repr, DecidableEq

/-- Lines 921-926: `if (data.medias && data.medias.length > 0)` take
`medias[0].src` and prefer `src?.file` over `src?.hls`. -/
def firstMediaUrl (medias : Option (List MediaItem)) : Option String :=
  match medias with
  | some (m :: _) => jsOrStr (m.src.bind MediaSrc.file) (m.src.bind MediaSrc.hls)
  | _ => none

/-- `parseEpisode(data)` from `src/index.js` lines 917-960.  `nowMs` is
the clock read by `new Date()` for episodes without `scheduleStart`. -/
def parseEpisode (data : Option MainContent) (nowMs : Nat) : Option Episode :=
  match data with
  | none => none
  | some d =>
    let audioUrl0 : Option String := firstMediaUrl d.medias
    if jsStrFalsy audioUrl0 then none
    else
      let u := audioUrl0.getD ""
      let u1 := if jsStartsWith u "//" then "https:" ++ u else u
      if !jsStartsWith u1 "https://" && !jsStartsWith u1 "http://" then none
      else
        some {
          id := d.id
          title := jsOrStrD d.heading "Untitled"
          description := stripHtml (some (jsOrStrD d.lead (jsOrStrD d.body "")))
          audioUrl := u1
          pubDate :=
            match d.scheduleStart with
            | some t => if t ≠ 0 then t * 1000 else nowMs
            | none => nowMs
          imageUrl := jsOrStrD ((d.photos.bind List.head?).bind Photo.photoUrlOriginal) ""
          duration := jsOrNat0 ((d.medias.bind List.head?).bind MediaItem.duration)
          link := "https://vikerraadio.err.ee/" ++ toString d.id }

/-! ### `generateRSS` (lines 974-1028)

The XML document interpolates fixed channel metadata, the fields below,
and one `<item>` element per entry of `items`, in order; the textual
rendering (`escapeXml`, `toUTCString`) is presentation and is elided, so
the feed is modelled as the structured data the XML contains. -/

structure RSSFeed where
  lastBuildDate : Nat
  channelPubDate : Nat
  channelImage : String
  selfUrl : String
  /-- the episodes rendered as `<item>` elements, in order -/
  items : List Episode
  deriving Repr, DecidableEq

def vikerraadioLogo : String :=
  "https://vikerraadio.err.ee/img/vikerraadio_logo.png"

/-- `generateRSS(episodes, selfUrl)`; `now` is the clock read by
`new Date()` at the top of the function. -/
def generateRSS (episodes : List Episode) (selfUrl : String) (now : Nat) :
    RSSFeed :=
  let pastEpisodes := episodes.filter fun ep => ep.pubDate ≤ now
  let latestDate :=
    match pastEpisodes.head? with
    | some ep => ep.pubDate
    | none => now
  let channelImage :=
    match pastEpisodes.head? with
    | some ep => if ep.imageUrl ≠ "" then ep.imageUrl else vikerraadioLogo
    | none => vikerraadioLogo
  { lastBuildDate := now
    channelPubDate := latestDate
    channelImage := channelImage
    selfUrl := selfUrl
    items := pastEpisodes }

/-! ### `fetchEpisodes` (lines 832-915)

The network is abstracted by an oracle mapping each request URL to the
settled outcome of `fetchWithRetry` + `response.json()` for that URL
(deterministic per URL within the one batch).  `Promise.all` returns the
per-id results in input order regardless of completion order; only the
`setCache` side effects happen in completion order, and the final cache
state is folded here in input order (the returned episode list does not
depend on that order). -/

def ERR_API_URL : String := "https://services.err.ee/api/v2"

def SERIES_CONTENT_ID : String := "1038081"

def seriesCacheKey : String := "series:" ++ SERIES_CONTENT_ID

def seriesUrl : String :=
  ERR_API_URL ++ "/vodContent/getContentPageData?contentId=" ++ SERIES_CONTENT_ID

def episodeKey (id : Nat) : String := "episode:" ++ toString id

def contentUrl (id : Nat) : String :=
  ERR_API_URL ++ "/vodContent/getContentPageData?contentId=" ++ toString id

/-- Lines 851-863: flatten `seriesData.data?.seasonList?.items || []`
(year > month > contents) into the episode id list, keeping only truthy
ids. -/
def extractEpisodeIds (seriesData : ApiPayload) : List Nat :=
  let seasonList :=
    ((seriesData.data.bind PayloadData.seasonList).bind SeasonList.items).getD []
  seasonList.flatMap fun year =>
    (year.items.getD []).flatMap fun month =>
      (month.contents.getD []).filterMap fun content =>
        match content.id with
        | some i => if i ≠ 0 then some i else none
        | none => none

/-- Lines 880-893: the settled `Promise.all` results, one per uncached
id, in input order: `{ id, data }` on success, `{ id, data: null }` (with
a logged error) on failure. -/
def mkFetchResults (uncachedIds : List Nat)
    (oracle : String → Except JsError ApiPayload) :
    List (Nat × Except JsError ApiPayload) :=
  uncachedIds.map fun id => (id, oracle (contentUrl id))

/-- Lines 895-900: the map of freshly fetched episodes, keyed like the
cache. -/
def mkFetchedMap (results : List (Nat × Except JsError ApiPayload)) :
    List (String × ApiPayload) :=
  results.filterMap fun r =>
    match r.2 with
    | .ok d => some (episodeKey r.1, d)
    | .error _ => none

/-- Lines 904-911, the per-id step of the final merge:
`cachedEpisodes.get(key) || fetchedMap.get(key)`, then
`parseEpisode(episodeData.data?.mainContent)` (null when the id resolved
nowhere or parsing rejected it). -/
def resolveItem (cachedEpisodes fetchedMap : List (String × ApiPayload))
    (now : Nat) (id : Nat) : Option Episode :=
  match jsOrObj (lookupBatch cachedEpisodes (episodeKey id))
      (lookupBatch fetchedMap (episodeKey id)) with
  | some epData => parseEpisode (epData.data.bind PayloadData.mainContent) now
  | none => none

/-- Lines 902-914: map the ordered ids through `resolveItem` and drop the
nulls. -/
def assembleEpisodes (recentIds : List Nat)
    (cachedEpisodes fetchedMap : List (String × ApiPayload)) (now : Nat) :
    List Episode :=
  (recentIds.map (resolveItem cachedEpisodes fetchedMap now)).reduceOption

/-- Lines 850-914: everything after the series listing has been obtained. -/
def fetchEpisodesRest (s : LRUState ApiPayload) (now : Nat)
    (oracle : String → Except JsError ApiPayload) (seriesData : ApiPayload) :
    List Episode × LRUState ApiPayload × List String :=
  let episodeIds := extractEpisodeIds seriesData
  let recentIds := episodeIds.take 50
  let episodeCacheKeys := recentIds.map episodeKey
  let batch := getCachedBatch s episodeCacheKeys now
  let cachedEpisodes := batch.1
  let uncachedIds := recentIds.filter fun id =>
    !(lookupBatch cachedEpisodes (episodeKey id)).isSome
  let fetchResults := mkFetchResults uncachedIds oracle
  let cacheAfter := fetchResults.foldl (fun st r =>
      match r.2 with
      | .ok d => setCache st (episodeKey r.1) d none now
      | .error _ => st) batch.2
  let logs := fetchResults.filterMap fun r =>
    match r.2 with
    | .ok _ => none
    | .error e => some ("Failed to fetch episode " ++ toString r.1 ++ ": " ++
        e.message)
  let fetchedMap := mkFetchedMap fetchResults
  (assembleEpisodes recentIds cachedEpisodes fetchedMap now, cacheAfter, logs)

/-- `fetchEpisodes()` (lines 832-915), returning the episode list, the
final response-cache state and the `console.error` log lines. -/
def fetchEpisodes (s : LRUState ApiPayload) (now : Nat)
    (oracle : String → Except JsError ApiPayload) :
    List Episode × LRUState ApiPayload × List String :=
  let g := getCached s seriesCacheKey now
  match g.1 with
  | some seriesData => fetchEpisodesRest g.2 now oracle seriesData
  | none =>
    match oracle seriesUrl with
    | .error e =>
      ([], g.2, ["Failed to fetch series data: " ++ e.message])
    | .ok seriesData =>
      let s2 := setCache g.2 seriesCacheKey seriesData none now
      fetchEpisodesRest s2 now oracle seriesData

/-! ### Claim C9 -/

theorem scheme_or_of_guard {x : String}
    (hscheme : ¬((!jsStartsWith x "https://" && !jsStartsWith x "http://") = true)) :
    jsStartsWith x "https://" = true ∨ jsStartsWith x "http://" = true := by
  rcases hA : jsStartsWith x "https://" with _ | _
  · rcases hB : jsStartsWith x "http://" with _ | _
    · exact absurd (by rw [hA, hB]; rfl) hscheme
    · exact Or.inr rfl
  · exact Or.inl rfl

/-- Claim C9: `parseEpisode` returns either null or an episode whose
`audioUrl` starts with `https://` or `http://`; inputs with no media
entry, no file/hls source, or a remaining non-http(s) scheme after the
protocol-relative normalization are rejected as null (silently dropped),
never reported as errors. -/
theorem parseEpisode_scheme_guarantee :
    (∀ (data : Option MainContent) (nowMs : Nat) (ep : Episode),
      parseEpisode data nowMs = some ep →
      jsStartsWith ep.audioUrl "https://" = true ∨
      jsStartsWith ep.audioUrl "http://" = true) ∧
    (∀ nowMs : Nat, parseEpisode none nowMs = none) ∧
    (∀ (d : MainContent) (nowMs : Nat), d.medias = some [] →
      parseEpisode (some d) nowMs = none) ∧
    (∀ (d : MainContent) (nowMs : Nat) (m : MediaItem) (ms : List MediaItem),
      d.medias = some (m :: ms) → m.src = none →
      parseEpisode (some d) nowMs = none) := by
  refine ⟨?_, fun _ => rfl, ?_, ?_⟩
  · intro data nowMs ep h
    rcases data with _ | d
    · simp [parseEpisode] at h
    · simp only [parseEpisode] at h
      rcases haud : firstMediaUrl d.medias with _ | u <;> rw [haud] at h
      · simp [jsStrFalsy] at h
      · split at h
        · exact Option.noConfusion h
        · split at h <;> split at h <;>
            first
              | exact Option.noConfusion h
              | (rename_i hscheme
                 have haudio := congrArg Episode.audioUrl (Option.some.inj h)
                 simp only [Option.getD_some] at haudio hscheme
                 rw [← haudio]
                 exact scheme_or_of_guard hscheme)
  · intro d nowMs hm
    simp only [parseEpisode]
    rw [hm]
    rfl
  · intro d nowMs m ms hm hsrc
    simp only [parseEpisode]
    rw [hm]
    simp [firstMediaUrl, hsrc, jsOrStr, jsStrFalsy]

/-- Witness input for `parseEpisode_scheme_guarantee`: a protocol-relative
file URL that normalizes to `https://`. -/
def c9Content : MainContent :=
  { id := 123
    heading := some "Test"
    lead := none
    body := none
    scheduleStart := some 1700000000
    medias := some [{ src := some { file := some "//example.com/audio.m4a",
                                    hls := none },
                      duration := some 300 }]
    photos := none }

/-- Witness for `parseEpisode_scheme_guarantee` at `c9Content`. -/
theorem parseEpisode_scheme_guarantee_witness :
    jsStartsWith "https://example.com/audio.m4a" "https://" = true ∨
    jsStartsWith "https://example.com/audio.m4a" "http://" = true :=
  parseEpisode_scheme_guarantee.1 (some c9Content) 0
    { id := 123
      title := "Test"
      description := ""
      audioUrl := "https://example.com/audio.m4a"
      pubDate := 1700000000000
      imageUrl := ""
      duration := 300
      link := "https://vikerraadio.err.ee/123" }
    (by rfl)

/-! ### Claim C10 -/

/-- Claim C10: `generateRSS` emits an `<item>` only for episodes with
`pubDate ≤ now` (future episodes are filtered out entirely, past ones are
all kept, in order), and the channel `pubDate` is the first remaining
past episode's date, or `now` when none remain. -/
theorem generateRSS_filters_future (episodes : List Episode)
    (selfUrl : String) (now : Nat) :
    (∀ ep ∈ (generateRSS episodes selfUrl now).items, ep.pubDate ≤ now) ∧
    (∀ ep ∈ episodes, ep.pubDate ≤ now →
      ep ∈ (generateRSS episodes selfUrl now).items) ∧
    (generateRSS episodes selfUrl now).items.Sublist episodes ∧
    (∀ e, (generateRSS episodes selfUrl now).items.head? = some e →
      (generateRSS episodes selfUrl now).channelPubDate = e.pubDate) ∧
    ((generateRSS episodes selfUrl now).items = [] →
      (generateRSS episodes selfUrl now).channelPubDate = now) := by
  refine ⟨?_, ?_, ?_, ?_, ?_⟩
  · intro ep hep
    have := List.of_mem_filter hep
    simpa using this
  · intro ep hep hpast
    exact List.mem_filter.mpr ⟨hep, by simpa using hpast⟩
  · exact List.filter_sublist episodes
  · intro e he
    show (match (episodes.filter fun ep => ep.pubDate ≤ now).head? with
      | some ep => ep.pubDate
      | none => now) = e.pubDate
    rw [show (generateRSS episodes selfUrl now).items =
      episodes.filter (fun ep => ep.pubDate ≤ now) from rfl] at he
    rw [he]
  · intro hnil
    show (match (episodes.filter fun ep => ep.pubDate ≤ now).head? with
      | some ep => ep.pubDate
      | none => now) = now
    rw [show (generateRSS episodes selfUrl now).items =
      episodes.filter (fun ep => ep.pubDate ≤ now) from rfl] at hnil
    rw [hnil]
    rfl

def c10Past : Episode :=
  { id := 1, title := "A", description := "", audioUrl := "https://a",
    pubDate := 50, imageUrl := "", duration := 1, link := "l1" }

def c10Future : Episode :=
  { id := 2, title := "B", description := "", audioUrl := "https://b",
    pubDate := 200, imageUrl := "i2", duration := 2, link := "l2" }

/-- Witness for `generateRSS_filters_future` at a list with one past and
one future episode at time 100. -/
theorem generateRSS_filters_future_witness :
    c10Past.pubDate ≤ 100 ∧
    c10Past ∈ (generateRSS [c10Past, c10Future] "self" 100).items ∧
    (generateRSS [c10Past, c10Future] "self" 100).channelPubDate =
      c10Past.pubDate :=
  ⟨(generateRSS_filters_future [c10Past, c10Future] "self" 100).1 c10Past
      (by decide),
   (generateRSS_filters_future [c10Past, c10Future] "self" 100).2.1 c10Past
      (by decide) (by decide),
   (generateRSS_filters_future [c10Past, c10Future] "self" 100).2.2.2.1
      c10Past (by decide)⟩

/-! ### Claim C4 -/

theorem episodeKey_toString_eq {i j : Nat} (h : episodeKey i = episodeKey j) :
    (toString i : String) = toString j := by
  have hd := congrArg String.data h
  rw [episodeKey, episodeKey, string_data_append, string_data_append] at hd
  exact String.ext (List.append_cancel_left hd)

theorem contentUrl_eq_of_episodeKey_eq {i j : Nat}
    (h : episodeKey i = episodeKey j) : contentUrl i = contentUrl j := by
  unfold contentUrl
  rw [episodeKey_toString_eq h]

theorem mem_mkFetchedMap {results : List (Nat × Except JsError ApiPayload)}
    {p : String × ApiPayload} (hp : p ∈ mkFetchedMap results) :
    ∃ r ∈ results, r.2 = Except.ok p.2 ∧ p.1 = episodeKey r.1 := by
  unfold mkFetchedMap at hp
  rcases List.mem_filterMap.mp hp with ⟨r, hr, hmap⟩
  rcases hres : r.2 with e | d <;> rw [hres] at hmap
  · exact Option.noConfusion hmap
  · have hpd := Option.some.inj hmap
    refine ⟨r, hr, ?_, ?_⟩
    · rw [hres, ← hpd]
    · rw [← hpd]

/-- Within one batch, the fetched-episodes map determines values by key:
equal keys force equal id renderings, hence equal request URLs, hence the
same oracle response. -/
theorem mkFetchedMap_coherent (l : List Nat)
    (oracle : String → Except JsError ApiPayload) :
    ∀ p ∈ mkFetchedMap (mkFetchResults l oracle),
      ∀ q ∈ mkFetchedMap (mkFetchResults l oracle), p.1 = q.1 → p.2 = q.2 := by
  intro p hp q hq hkey
  rcases mem_mkFetchedMap hp with ⟨r, hr, hrok, hrkey⟩
  rcases mem_mkFetchedMap hq with ⟨r', hr', hrok', hrkey'⟩
  rcases List.mem_map.mp hr with ⟨i, _, hfi⟩
  rcases List.mem_map.mp hr' with ⟨j, _, hfj⟩
  have hri : r.1 = i := by rw [← hfi]
  have hrj : r'.1 = j := by rw [← hfj]
  have hkeys : episodeKey i = episodeKey j := by
    rw [← hri, ← hrj, ← hrkey, ← hrkey', hkey]
  have hurl := contentUrl_eq_of_episodeKey_eq hkeys
  have hro : r.2 = oracle (contentUrl i) := by rw [← hfi]
  have hro' : r'.2 = oracle (contentUrl j) := by rw [← hfj]
  have : Except.ok (ε := JsError) p.2 = Except.ok q.2 := by
    rw [← hrok, ← hrok', hro, hro', hurl]
  exact Except.ok.inj this

/-- Lookup in a key-coherent association list is invariant under
permutation. -/
theorem lookupBatch_perm {α : Type} {l l' : List (String × α)}
    (hperm : l.Perm l')
    (hcoh : ∀ p ∈ l, ∀ q ∈ l, p.1 = q.1 → p.2 = q.2) (k : String) :
    lookupBatch l k = lookupBatch l' k := by
  rcases hl : l.find? (fun e => e.1 = k) with _ | x
  · have hnone := List.find?_eq_none.mp hl
    have hl' : l'.find? (fun e => e.1 = k) = none :=
      List.find?_eq_none.mpr fun x hx => hnone x (hperm.mem_iff.mpr hx)
    unfold lookupBatch
    rw [hl, hl']
  · have hxmem : x ∈ l := List.mem_of_find?_eq_some hl
    have hxkey : x.1 = k := by simpa using List.find?_some hl
    rcases hl' : l'.find? (fun e => e.1 = k) with _ | y
    · exfalso
      have := List.find?_eq_none.mp hl' x (hperm.mem_iff.mp hxmem)
      simp [hxkey] at this
    · have hymem : y ∈ l := hperm.mem_iff.mpr (List.mem_of_find?_eq_some hl')
      have hykey : y.1 = k := by simpa using List.find?_some hl'
      have hval : x.2 = y.2 := hcoh x hxmem y hymem (hxkey.trans hykey.symm)
      unfold lookupBatch
      rw [hl, hl']
      simp [hval]

theorem assembleEpisodes_eq_filterMap (recentIds : List Nat)
    (cached fetched : List (String × ApiPayload)) (now : Nat) :
    assembleEpisodes recentIds cached fetched now =
      recentIds.filterMap (resolveItem cached fetched now) := by
  simp [assembleEpisodes, List.reduceOption, List.filterMap_map, Function.comp]

/-- Claim C4: the items present in the assembler's output appear exactly
in the order their ids appear in the input list, for every partition into
cache hits, fetched misses and failures: the merge is the input-ordered
`filterMap` of the per-id resolution, it distributes over list
concatenation, and it is invariant under the order in which the fetch
results were produced (any permutation of the miss list). -/
theorem assembleEpisodes_order_preserved :
    (∀ (recentIds : List Nat) (cached : List (String × ApiPayload))
        (oracle : String → Except JsError ApiPayload) (now : Nat)
        (uncachedIds order : List Nat), order.Perm uncachedIds →
      assembleEpisodes recentIds cached
          (mkFetchedMap (mkFetchResults order oracle)) now =
        assembleEpisodes recentIds cached
          (mkFetchedMap (mkFetchResults uncachedIds oracle)) now) ∧
    (∀ (recentIds : List Nat) (cached fetched : List (String × ApiPayload))
        (now : Nat),
      assembleEpisodes recentIds cached fetched now =
        recentIds.filterMap (resolveItem cached fetched now)) ∧
    (∀ (ids₁ ids₂ : List Nat) (cached fetched : List (String × ApiPayload))
        (now : Nat),
      assembleEpisodes (ids₁ ++ ids₂) cached fetched now =
        assembleEpisodes ids₁ cached fetched now ++
          assembleEpisodes ids₂ cached fetched now) := by
  refine ⟨?_, assembleEpisodes_eq_filterMap, ?_⟩
  · intro recentIds cached oracle now uncachedIds order hperm
    have hmapperm : (mkFetchedMap (mkFetchResults order oracle)).Perm
        (mkFetchedMap (mkFetchResults uncachedIds oracle)) :=
      List.Perm.filterMap _ (List.Perm.map _ hperm)
    have hlook : ∀ k, lookupBatch (mkFetchedMap (mkFetchResults order oracle)) k
        = lookupBatch (mkFetchedMap (mkFetchResults uncachedIds oracle)) k :=
      fun k => lookupBatch_perm hmapperm (mkFetchedMap_coherent order oracle) k
    have hres : resolveItem cached (mkFetchedMap (mkFetchResults order oracle)) now
        = resolveItem cached (mkFetchedMap (mkFetchResults uncachedIds oracle)) now := by
      funext id
      unfold resolveItem
      rw [hlook (episodeKey id)]
    rw [assembleEpisodes_eq_filterMap, assembleEpisodes_eq_filterMap, hres]
  · intro ids₁ ids₂ cached fetched now
    rw [assembleEpisodes_eq_filterMap, assembleEpisodes_eq_filterMap,
      assembleEpisodes_eq_filterMap, List.filterMap_append]

/-- A valid content payload for id `i`, used by concrete scenarios. -/
def samplePayload (i : Nat) : ApiPayload :=
  { data := some
      { mainContent := some
          { id := i
            heading := some "T"
            lead := none
            body := none
            scheduleStart := some 100
            medias := some [{ src := some { file := some "https://x/a.m4a",
                                            hls := none },
                              duration := some 10 }]
            photos := none }
        seasonList := none } }

def c4Cached : List (String × ApiPayload) :=
  [(episodeKey 1, samplePayload 1), (episodeKey 3, samplePayload 3)]

def c4Oracle : String → Except JsError ApiPayload := fun url =>
  if url = contentUrl 2 then Except.ok (samplePayload 2)
  else if url = contentUrl 4 then Except.ok (samplePayload 4)
  else Except.error ⟨"Error", "HTTP 500: boom"⟩

/-- Witness for `assembleEpisodes_order_preserved`: with hits 1 and 3 and
misses 2 and 4, assembling from the reversed fetch-completion order gives
the same output. -/
theorem assembleEpisodes_order_preserved_witness :
    assembleEpisodes [1, 2, 3, 4] c4Cached
        (mkFetchedMap (mkFetchResults [4, 2] c4Oracle)) 0 =
      assembleEpisodes [1, 2, 3, 4] c4Cached
        (mkFetchedMap (mkFetchResults [2, 4] c4Oracle)) 0 :=
  assembleEpisodes_order_preserved.1 [1, 2, 3, 4] c4Cached c4Oracle 0
    [2, 4] [4, 2] (by decide)

/-! ### Claim C3 -/

/-- An id whose fetch failed contributes nothing to the fetched-episodes
map: any entry under its key would have to come from a successful fetch of
the same URL. -/
theorem lookupBatch_mkFetchedMap_of_error {uncachedIds : List Nat}
    {oracle : String → Except JsError ApiPayload} {id : Nat} {e : JsError}
    (herr : oracle (contentUrl id) = Except.error e) :
    lookupBatch (mkFetchedMap (mkFetchResults uncachedIds oracle))
      (episodeKey id) = none := by
  rcases hl : (mkFetchedMap (mkFetchResults uncachedIds oracle)).find?
      (fun x => x.1 = episodeKey id) with _ | x
  · unfold lookupBatch
    rw [hl]
    rfl
  · exfalso
    have hxmem := List.mem_of_find?_eq_some hl
    have hxkey : x.1 = episodeKey id := by simpa using List.find?_some hl
    rcases mem_mkFetchedMap hxmem with ⟨r, hr, hok, hkey⟩
    rcases List.mem_map.mp hr with ⟨i, _, hfi⟩
    have hri : r.1 = i := by rw [← hfi]
    have hkeys : episodeKey i = episodeKey id := by
      rw [← hri, ← hkey, hxkey]
    have hurl := contentUrl_eq_of_episodeKey_eq hkeys
    have hro : r.2 = oracle (contentUrl i) := by rw [← hfi]
    have : Except.error (α := ApiPayload) e = Except.ok x.2 := by
      rw [← herr, ← hurl, ← hro, hok]
    exact Except.noConfusion this

/-- Claim C3 is false as literally stated: the result can be empty even
though the upstream series listing was obtained.  Concretely, a cached-
empty run whose listing yields the single id 1, whose item fetch then
fails, returns `[]` (with the item failure logged) although the listing
call succeeded. -/
def c3Empty : LRUState ApiPayload := ⟨200, 3600000, []⟩

def c3Series : ApiPayload :=
  { data := some
      { mainContent := none
        seasonList := some
          { items := some [{ items := some [{ contents := some [{ id := some 1 }] }] }] } } }

def c3Oracle : String → Except JsError ApiPayload := fun url =>
  if url = seriesUrl then Except.ok c3Series
  else Except.error ⟨"Error", "HTTP 500: boom"⟩

theorem fetchEpisodes_empty_without_listing_failure_cex :
    c3Oracle seriesUrl = Except.ok c3Series ∧
    (fetchEpisodes c3Empty 0 c3Oracle).1 = [] ∧
    (fetchEpisodes c3Empty 0 c3Oracle).2.2 =
      ["Failed to fetch episode 1: HTTP 500: boom"] := by
  refine ⟨rfl, rfl, rfl⟩

/-- Claim C3 (amended): a batch never fails as a whole because of
individual item failures — an id whose fetch fails resolves to nothing
and is merely omitted while `fetchEpisodes` still returns normally — and
failure to obtain the upstream series listing (not cached, fetch throws)
makes `fetchEpisodes` return an empty list and log the cause instead of
raising; an empty result, however, can also arise without a listing
failure, by every item being omitted. -/
theorem fetchEpisodes_failure_policy :
    (∀ (s : LRUState ApiPayload) (now : Nat)
        (oracle : String → Except JsError ApiPayload) (e : JsError),
      (getCached s seriesCacheKey now).1 = none →
      oracle seriesUrl = Except.error e →
      fetchEpisodes s now oracle =
        ([], (getCached s seriesCacheKey now).2,
          ["Failed to fetch series data: " ++ e.message])) ∧
    (∀ (cached : List (String × ApiPayload)) (uncachedIds : List Nat)
        (oracle : String → Except JsError ApiPayload) (now id : Nat)
        (e : JsError),
      oracle (contentUrl id) = Except.error e →
      lookupBatch cached (episodeKey id) = none →
      resolveItem cached (mkFetchedMap (mkFetchResults uncachedIds oracle))
        now id = none) := by
  constructor
  · intro s now oracle e hmiss herr
    simp [fetchEpisodes, hmiss, herr]
  · intro cached uncachedIds oracle now id e herr hcached
    unfold resolveItem
    rw [hcached, lookupBatch_mkFetchedMap_of_error herr]
    rfl

def c3FailOracle : String → Except JsError ApiPayload :=
  fun _ => Except.error ⟨"Error", "HTTP 404: nope"⟩

/-- Witness for `fetchEpisodes_failure_policy`: an unobtainable listing
empties the batch with the cause logged, and a failing item resolves to
nothing. -/
theorem fetchEpisodes_failure_policy_witness :
    fetchEpisodes c3Empty 0 c3FailOracle =
      ([], (getCached c3Empty seriesCacheKey 0).2,
        ["Failed to fetch series data: " ++ "HTTP 404: nope"]) ∧
    resolveItem [] (mkFetchedMap (mkFetchResults [1] c3FailOracle)) 0 1 =
      none :=
  ⟨fetchEpisodes_failure_policy.1 c3Empty 0 c3FailOracle
      ⟨"Error", "HTTP 404: nope"⟩ rfl rfl,
   fetchEpisodes_failure_policy.2 [] [1] c3FailOracle 0 1
      ⟨"Error", "HTTP 404: nope"⟩ rfl rfl⟩

end OhtujuttRss
